import Mathlib

/-!
Shallow embedding of the image conversion plugin (`src/image/converters.js`
and `src/image/imageengine.js`): view/model tree data types, the consumable
tracker interface, the figure→image converter, the attribute sync converter,
the hoist-detection search and the hoist-repair (tree-splitting) converter,
together with theorems checking the specified properties.
-/

namespace CKImage

/-- Model tree node (ckeditor5-engine model): an element with a name, an
attribute map and ordered children, a text node, or a document fragment
(an ordered sequence of root-less nodes). -/
inductive MNode where
  | element (name : String) (attrs : List (String × String)) (children : List MNode)
  | text (s : String)
  | fragment (children : List MNode)
deriving Repr

mutual

/-- Structural equality test for model nodes (stands in for the reference
comparisons needed to model identity-keyed sets on concrete values). -/
def MNode.beq : MNode → MNode → Bool
  | .text a, .text b => a == b
  | .element n₁ a₁ c₁, .element n₂ a₂ c₂ => n₁ == n₂ && a₁ == a₂ && MNode.beqList c₁ c₂
  | .fragment c₁, .fragment c₂ => MNode.beqList c₁ c₂
  | _, _ => false

/-- Pointwise `MNode.beq` on lists of model nodes. -/
def MNode.beqList : List MNode → List MNode → Bool
  | [], [] => true
  | x :: xs, y :: ys => MNode.beq x y && MNode.beqList xs ys
  | _, _ => false

end

instance : BEq MNode := ⟨MNode.beq⟩

/-- View tree node (ckeditor5-engine view): element or text. Each node
carries a numeric identifier standing in for JavaScript object identity,
which the consumable tracker is keyed by. -/
inductive VNode where
  | element (id : Nat) (name : String) (attrs : List (String × String)) (children : List VNode)
  | text (id : Nat) (s : String)
deriving Repr

/-- Identity of a view node (models JS object identity for consumables). -/
def VNode.vid : VNode → Nat
  | .element i _ _ _ => i
  | .text i _ => i

/-- Children of a view node (`getChildren()`; a text node has none). -/
def VNode.childrenOf : VNode → List VNode
  | .element _ _ _ cs => cs
  | .text _ _ => []

/-- Attribute lookup on an attribute list (`getAttribute`). -/
def lookupAttr (attrs : List (String × String)) (k : String) : Option String :=
  (attrs.find? (fun p => p.1 == k)).map (·.2)

/-- `hasAttribute` on a view element's attribute list. -/
def VNode.hasAttr (v : VNode) (k : String) : Bool :=
  match v with
  | .element _ _ attrs _ => (lookupAttr attrs k).isSome
  | .text _ _ => false

/-- `viewChild.is( 'img' )`: true exactly for elements named `img`. -/
def VNode.isImg : VNode → Bool
  | .element _ n _ _ => n == "img"
  | .text _ _ => false

/-- Split a character list at every occurrence of a separator character
(the semantics of JavaScript `String.prototype.split` with a one-character
separator, restricted to the inputs this plugin feeds it). -/
def splitChar (sep : Char) : List Char → List (List Char)
  | [] => [[]]
  | c :: rest =>
    let r := splitChar sep rest
    if c = sep then [] :: r
    else
      match r with
      | [] => [[c]]
      | g :: gs => (c :: g) :: gs

/-- JavaScript `s.split(sep)` for a one-character separator. -/
def jsSplit (s : String) (sep : Char) : List String :=
  (splitChar sep s.toList).map (fun g => String.mk g)

/-- JavaScript `/./.test(s)`: `s` contains at least one character that is
not a line terminator. Models the `src: /./` and `alt: /./` patterns of
the converters built in `imageengine.js`. -/
def testDotRegex (s : String) : Bool :=
  s.toList.any (fun c => c ≠ '\n' && c ≠ '\r')

/-- Whether the `class` attribute value contains the given class token
(space separated), as the view consumable's `class: 'image'` test does. -/
def hasClass (attrs : List (String × String)) (cls : String) : Bool :=
  (jsSplit ((lookupAttr attrs "class").getD "") ' ').contains cls

/-- Entry of a context chain: either a plain name or a (model) node
reference, exactly the two cases `_findAllowedContext` distinguishes with
`typeof parent === 'string'`. -/
inductive CtxEntry where
  | str (s : String)
  | node (m : MNode)
deriving Repr

/-- The name of a context entry: the string itself, or the node's `name`
property (a non-element model node has no `name`; the empty string stands
in for JS `undefined` there). -/
def CtxEntry.name : CtxEntry → String
  | .str s => s
  | .node (.element n _ _) => n
  | .node _ => ""

/-- Consumable tracker state: the set of (node identity, marker) pairs
already consumed during this conversion pass. -/
structure Consumable where
  consumed : List (Nat × String)
deriving Repr

/-- `consumable.test`: a marker is still available iff it has not been
consumed. -/
def Consumable.test (c : Consumable) (id : Nat) (marker : String) : Bool :=
  !(c.consumed.contains (id, marker))

/-- `consumable.consume`: record a marker as consumed. -/
def Consumable.consume (c : Consumable) (id : Nat) (marker : String) : Consumable :=
  ⟨c.consumed ++ [(id, marker)]⟩

/-- The `while` loop of `_findAllowedContext`, with an explicit fuel
counter standing in for the loop's termination measure: each iteration
pops one entry, so fuel equal to the context length is never exhausted
(the zero-fuel non-empty case is unreachable from `_findAllowedContext`). -/
def _findAllowedContextGo (check : List CtxEntry → Bool) (limits : String → Bool) :
    Nat → List CtxEntry → Option (List CtxEntry)
  | _, [] => none
  | 0, _ :: _ => none
  | fuel + 1, a :: rest =>
    if check (a :: rest) then some (a :: rest)
    else
      let parent := (a :: rest).getLast (List.cons_ne_nil a rest)
      if limits parent.name then none
      else _findAllowedContextGo check limits fuel (a :: rest).dropLast

/-- `_findAllowedContext` (converters.js lines 153–179): starting from a
copy of the handed context, pop the innermost entry while the schema check
fails; the instant a popped entry's name is a schema limit return `null`;
return the surviving context if non-empty, else `null`. `check` is the
schema query `{ name: 'image', attributes: ['src'], inside: context }`
partially applied to everything but the context. -/
def _findAllowedContext (check : List CtxEntry → Bool) (limits : String → Bool)
    (context : List CtxEntry) : Option (List CtxEntry) :=
  _findAllowedContextGo check limits context.length context

/-- JavaScript `element.setAttribute(k, v)` on an attribute list:
overwrite the value when the key is present, otherwise append it. -/
def setAttr (attrs : List (String × String)) (k v : String) : List (String × String) :=
  if attrs.any (fun p => p.1 == k) then
    attrs.map (fun p => if p.1 == k then (k, v) else p)
  else attrs ++ [(k, v)]

/-- JavaScript `element.removeAttribute(k)` on an attribute list. -/
def removeAttr (attrs : List (String × String)) (k : String) : List (String × String) :=
  attrs.filter (fun p => p.1 != k)

/-- State touched by the model→view attribute sync converter: the
consumable tracker for the model item and the mapped view `figure`
element (the result of `conversionApi.mapper.toViewElement( data.item )`
for the one image node under consideration). -/
structure SyncState where
  cons : Consumable
  figure : VNode
deriving Repr

/-- `modelToViewAttributeConverter` (converters.js lines 84–100): split the
event name on `:`, consume `parts[0] + ':' + parts[1]` on the model item
(no-op when already consumed), then remove or set the attribute on the
first child of the mapped figure element. A `none` result models the
TypeError the source would throw when the figure has no element child. -/
def modelToViewAttributeConverter (evtName : String) (itemId : Nat)
    (attributeKey attributeNewValue : String) (st : SyncState) : Option SyncState :=
  let parts := jsSplit evtName ':'
  let consumableType := parts.getD 0 "undefined" ++ ":" ++ parts.getD 1 "undefined"
  if !(st.cons.test itemId consumableType) then some st
  else
    let cons' := st.cons.consume itemId consumableType
    match st.figure with
    | .element fid fname fattrs (img :: others) =>
      match img with
      | .element iid iname iattrs ich =>
        let img' :=
          if parts.getD 0 "undefined" == "removeAttribute" then
            VNode.element iid iname (removeAttr iattrs attributeKey) ich
          else
            VNode.element iid iname (setAttr iattrs attributeKey attributeNewValue) ich
        some ⟨cons', .element fid fname fattrs (img' :: others)⟩
      | .text _ _ => none
    | _ => none

/-- The slice of `conversionApi` that `viewFigureToModel` consumes: the
schema check (name, required attributes, context) and the host dispatch
entry points `convertItem` / `convertChildren`, threaded through the
consumable tracker. -/
structure ConversionApi where
  schemaCheck : String → List String → List CtxEntry → Bool
  convertItem : VNode → Consumable → List CtxEntry → Option MNode × Consumable
  convertChildren : VNode → Consumable → List CtxEntry → List MNode × Consumable

/-- The consumable test `{ name: true, class: cls }` on a view node: the
class must be present on the element and both markers unconsumed. -/
def testNameAndClass (cons : Consumable) (v : VNode) (cls : String) : Bool :=
  match v with
  | .element i _ attrs _ =>
    hasClass attrs cls && cons.test i "name" && cons.test i ("class:" ++ cls)
  | .text _ _ => false

/-- `modelWriter.insert( ModelPosition.createAt( modelImage ), modelChildren )`:
insert the converted children at the start of the model image's content.
Only element results reach this call in the source. -/
def insertChildrenAtStart (m : MNode) (newChildren : List MNode) : MNode :=
  match m with
  | .element n a cs => .element n a (newChildren ++ cs)
  | other => other

/-- `viewFigureToModel` (converters.js lines 28–65). The result bundles the
new `data.output`, `data.context` and the consumable state; `none` models
the exception the source would hit if `convertItem` produced no model
image (the declining paths instead return the handed state unchanged). -/
def viewFigureToModel (api : ConversionApi) (input : VNode) (context : List CtxEntry)
    (output : Option MNode) (cons : Consumable) :
    Option (Option MNode × List CtxEntry × Consumable) :=
  if !testNameAndClass cons input "image" then some (output, context, cons)
  else if !api.schemaCheck "image" ["src"] context then some (output, context, cons)
  else
    match input.childrenOf.find? VNode.isImg with
    | none => some (output, context, cons)
    | some viewImage =>
      if !(viewImage.hasAttr "src") || !(cons.test viewImage.vid "name") then
        some (output, context, cons)
      else
        match api.convertItem viewImage cons context with
        | (none, _) => none
        | (some modelImage, cons₂) =>
          match api.convertChildren input cons₂ (context ++ [CtxEntry.node modelImage]) with
          | (modelChildren, cons₃) =>
            some (some (insertChildrenAtStart modelImage modelChildren),
              (context ++ [CtxEntry.node modelImage]).dropLast, cons₃)

/-- The converters registered for `element:img` in `imageengine.js`
(lines 57–71), composed: the element converter built `from { name: 'img',
attribute: { src: /./ } }` producing `new ModelElement( 'image', { src } )`,
which consumes the element name and `src` attribute and checks the schema
at the current context, followed by the `alt` attribute converter
(`from { name: 'img', attribute: { alt: /./ } }`, `consuming attribute alt`,
adding `{ key: 'alt', value }`). The dispatch glue is the host framework's
view-converter builder, an external collaborator; its consumption and
schema-checking behaviour here follows the spec's contract for it. -/
def imgElementConverter (schemaCheck : String → List String → List CtxEntry → Bool)
    (v : VNode) (cons : Consumable) (context : List CtxEntry) :
    Option MNode × Consumable :=
  match v with
  | .element i n attrs _ =>
    if n == "img" then
      match lookupAttr attrs "src" with
      | some src =>
        if testDotRegex src && cons.test i "name" && cons.test i "attribute:src"
            && schemaCheck "image" ["src"] context then
          let cons₂ := (cons.consume i "name").consume i "attribute:src"
          match lookupAttr attrs "alt" with
          | some alt =>
            if testDotRegex alt && cons₂.test i "attribute:alt" then
              (some (.element "image" [("src", src), ("alt", alt)] []),
                cons₂.consume i "attribute:alt")
            else (some (.element "image" [("src", src)] []), cons₂)
          | none => (some (.element "image" [("src", src)] []), cons₂)
        else (none, cons)
      | none => (none, cons)
    else (none, cons)
  | .text _ _ => (none, cons)

/-- `conversionApi.convertChildren` for the data pipeline restricted to the
converters this plugin registers: dispatch each child of the input to the
`element:img` converters in order, collecting outputs and threading the
consumable state; children no converter takes (or already-consumed ones)
contribute nothing. -/
def convertChildrenData (schemaCheck : String → List String → List CtxEntry → Bool)
    (input : VNode) (cons : Consumable) (context : List CtxEntry) :
    List MNode × Consumable :=
  input.childrenOf.foldl
    (fun acc child =>
      match imgElementConverter schemaCheck child acc.2 context with
      | (some m, c') => (acc.1 ++ [m], c')
      | (none, c') => (acc.1, c'))
    ([], cons)

/-- `convertHoistableImage` (converters.js lines 114–141). The final list
component is the autohoist marker set (`autohoistedImages`), to which the
converted output is added; `none` models the TypeError of adding an
undefined output to the weak set. `data.context` is never written — only
the fresh `newData` receives the allowed context. -/
def convertHoistableImage (schemaCheck : String → List String → List CtxEntry → Bool)
    (limits : String → Bool)
    (convertItemFn : VNode → Consumable → List CtxEntry → Option MNode × Consumable)
    (img : VNode) (context : List CtxEntry) (output : Option MNode)
    (cons : Consumable) (hoisted : List MNode) :
    Option (Option MNode × List CtxEntry × Consumable × List MNode) :=
  if !(cons.test img.vid "name" && cons.test img.vid "attribute:src") then
    some (output, context, cons, hoisted)
  else
    match _findAllowedContext (fun c => schemaCheck "image" ["src"] c) limits context with
    | none => some (output, context, cons, hoisted)
    | some allowedContext =>
      match convertItemFn img cons allowedContext with
      | (some m, cons') => some (some m, context, cons', hoisted ++ [m])
      | (none, _) => none

/-- The child-scanning loop of `hoistImage` (converters.js lines 213–267),
counting down. The first component is the current child list of
`data.output` (children are physically removed as pieces are broken off),
the second is `newOutput`, the third `hasNonAutohoistedChildren`. At a
marked child the right remainder moves into a shallow clone, the child is
detached, `newOutput` is shifted and the clone, the child and the
(non-empty) shrunken element are prepended. -/
def hoistLoop (name : String) (attrs : List (String × String)) (marked : MNode → Bool) :
    Nat → List MNode → List MNode → Bool → List MNode × List MNode × Bool
  | 0, cur, newOutput, hasNon => (cur, newOutput, hasNon)
  | i + 1, cur, newOutput, hasNon =>
    match cur[i]? with
    | none => hoistLoop name attrs marked i cur newOutput hasNon
    | some child =>
      if marked child then
        let broken := cur.drop (i + 1)
        let cur' := cur.take i
        let rest₁ := newOutput.drop 1
        let rest₂ := if broken.isEmpty then rest₁ else MNode.element name attrs broken :: rest₁
        let rest₃ := child :: rest₂
        let rest₄ := if cur'.isEmpty then rest₃ else MNode.element name attrs cur' :: rest₃
        hoistLoop name attrs marked i cur' rest₄ hasNon
      else
        hoistLoop name attrs marked i cur newOutput true

/-- `hoistImage` (converters.js lines 191–283): skip when there is no
output or it is not an element; otherwise run the scanning loop and, when
the output changed, re-append the emptied original element if it never had
a non-hoisted child, wrapping the pieces in a document fragment.
`marked` is membership in the autohoist marker set. -/
def hoistImage (marked : MNode → Bool) (output : Option MNode) : Option MNode :=
  match output with
  | none => none
  | some (.text s) => some (.text s)
  | some (.fragment cs) => some (.fragment cs)
  | some (.element name attrs children) =>
    match hoistLoop name attrs marked children.length children [] false with
    | (cur, newOutput, hasNon) =>
      if newOutput.isEmpty then some (.element name attrs cur)
      else some (.fragment (if hasNon then newOutput else newOutput ++ [.element name attrs cur]))

/-- The repair converter paired with the marker set it consults: the
source only ever calls `autohoistedImages.has` here, so the set component
of the result is the set it was handed. -/
def hoistImagePass (hoisted : List MNode) (output : Option MNode) :
    Option MNode × List MNode :=
  (hoistImage (fun n => hoisted.contains n) output, hoisted)

/-- The top-level pieces of a conversion result: the members of a document
fragment, or the single node itself. -/
def pieces : MNode → List MNode
  | .fragment ps => ps
  | x => [x]

/-- Flatten one output piece: a hoisted (marked) node stands for itself,
an element piece contributes its children. -/
def flattenPiece (marked : MNode → Bool) (p : MNode) : List MNode :=
  if marked p then [p]
  else
    match p with
    | .element _ _ cs => cs
    | x => [x]

/-- Flatten a conversion result piece by piece. -/
def flattenPieces (marked : MNode → Bool) (r : MNode) : List MNode :=
  (pieces r).flatMap (flattenPiece marked)

/-- Invariant of `hoistImage`'s accumulated `newOutput` past the leading
element: it flattens back to the suffix `L.drop j` of the original
children and every piece is a marked child or a non-empty clone. -/
def TailInv (name : String) (attrs : List (String × String)) (marked : MNode → Bool)
    (L : List MNode) (j : Nat) (tail : List MNode) : Prop :=
  tail.flatMap (flattenPiece marked) = L.drop j ∧
  ∀ p ∈ tail, marked p = true ∨ ∃ cs, cs ≠ [] ∧ p = MNode.element name attrs cs

/-- Loop invariant of `hoistLoop` at counter `c` over original children
`L`: for some `j` (the leftmost already-processed marked index, or the
length when none), the current children are `L.take j`, the entries
between `c` and `j` are scanned and unmarked, the `hasNon` flag reflects
the scanned suffix, and `newOutput` is empty or the leading element
followed by a tail satisfying `TailInv`. -/
def LoopInv (name : String) (attrs : List (String × String)) (marked : MNode → Bool)
    (L : List MNode) (c : Nat) (st : List MNode × List MNode × Bool) : Prop :=
  ∃ j, c ≤ j ∧ j ≤ L.length ∧ st.1 = L.take j ∧
    (∀ x ∈ (L.take j).drop c, marked x = false) ∧
    st.2.2 = (L.drop c).any (fun x => !marked x) ∧
    ((j = L.length ∧ st.2.1 = []) ∨
     (j < L.length ∧ ∃ tail,
        st.2.1 = (if (L.take j).isEmpty then tail else MNode.element name attrs (L.take j) :: tail) ∧
        TailInv name attrs marked L j tail))

/-- `createImageViewElement` (imageengine.js lines 86–88): an empty
`figure.image` holding an empty `img`. The numeric identities are fresh
for the created elements. -/
def createImageViewElement : VNode :=
  .element 0 "figure" [("class", "image")] [.element 1 "img" [] []]

/-- Model→view conversion of one `image` model node for the data pipeline:
`toElement( createImageViewElement() )` followed by one `addAttribute`
event per model attribute, each handled by `modelToViewAttributeConverter`
with a fresh consumable tracker for the pass. -/
def modelImageToView (m : MNode) : Option VNode :=
  match m with
  | .element n mattrs _ =>
    if n == "image" then
      (mattrs.foldl
        (fun st? kv => st?.bind (fun st =>
          modelToViewAttributeConverter ("addAttribute:" ++ kv.1 ++ ":image") 0 kv.1 kv.2 st))
        (some ⟨⟨[]⟩, createImageViewElement⟩)).map (·.figure)
    else none
  | _ => none

/-- The schema registered in `imageengine.js` line 41: `image` (with its
required `src`) is allowed inside `$root`. -/
def rtSchema (n : String) (_ : List String) (context : List CtxEntry) : Bool :=
  n == "image" &&
    match context with
    | [CtxEntry.str s] => s == "$root"
    | _ => false

/-- The conversion api for the data pipeline with this plugin's
registered converters. -/
def rtApi : ConversionApi :=
  ⟨rtSchema, imgElementConverter rtSchema, convertChildrenData rtSchema⟩

/-- A view `<figure class="image"><img src="..." alt="..."></figure>`. -/
def mkViewFigure (fid iid : Nat) (src alt : String) : VNode :=
  .element fid "figure" [("class", "image")]
    [.element iid "img" [("src", src), ("alt", alt)] []]

/-- View → model → view for the figure/img pair, starting each pass with
a fresh consumable tracker at the `$root` context. -/
def roundTrip (src alt : String) : Option VNode :=
  match viewFigureToModel rtApi (mkViewFigure 5 6 src alt) [CtxEntry.str "$root"] none ⟨[]⟩ with
  | some (some m, _, _) => modelImageToView m
  | _ => none

/-- The conversion api `viewFigureToModel` sees in the data pipeline:
the registered `element:img` converters for `convertItem` and an
arbitrary child-conversion behaviour for the other children. -/
def mkApi (sc : String → List String → List CtxEntry → Bool)
    (cc : VNode → Consumable → List CtxEntry → List MNode × Consumable) : ConversionApi :=
  ⟨sc, imgElementConverter sc, cc⟩

/-! ## Theorems -/

/-- One-step unfolding of the search loop on a non-empty context. -/
theorem findAllowedContextGo_succ (check : List CtxEntry → Bool) (limits : String → Bool)
    (fuel : Nat) (ctx : List CtxEntry) (h : ctx ≠ []) :
    _findAllowedContextGo check limits (fuel + 1) ctx =
      if check ctx then some ctx
      else if limits (ctx.getLast h).name then none
      else _findAllowedContextGo check limits fuel ctx.dropLast := by
  cases ctx with
  | nil => exact absurd rfl h
  | cons a rest => rfl

/-- Any context the search returns is a prefix of the handed context, and
none of the popped entries was a schema limit. -/
theorem findAllowedContextGo_prefix {check : List CtxEntry → Bool} {limits : String → Bool} :
    ∀ (fuel : Nat) (ctx res : List CtxEntry),
      _findAllowedContextGo check limits fuel ctx = some res →
      ∃ dropped, ctx = res ++ dropped ∧ ∀ e ∈ dropped, limits e.name = false := by
  intro fuel
  induction fuel with
  | zero =>
    intro ctx res h
    cases ctx with
    | nil => simp [_findAllowedContextGo] at h
    | cons a rest => simp [_findAllowedContextGo] at h
  | succ n ih =>
    intro ctx res h
    cases ctx with
    | nil => simp [_findAllowedContextGo] at h
    | cons a rest =>
      rw [findAllowedContextGo_succ check limits n (a :: rest) (List.cons_ne_nil a rest)] at h
      by_cases hc : check (a :: rest)
      · rw [if_pos hc, Option.some.injEq] at h
        exact ⟨[], by rw [← h, List.append_nil], by simp⟩
      · rw [if_neg hc] at h
        by_cases hl : limits ((a :: rest).getLast (List.cons_ne_nil a rest)).name
        · rw [if_pos hl] at h
          exact absurd h (by simp)
        · rw [if_neg hl] at h
          obtain ⟨dropped, hctx, hdr⟩ := ih _ _ h
          refine ⟨dropped ++ [(a :: rest).getLast (List.cons_ne_nil a rest)], ?_, ?_⟩
          · rw [← List.append_assoc, ← hctx, List.dropLast_append_getLast]
          · intro e he
            rcases List.mem_append.mp he with h1 | h2
            · exact hdr e h1
            · rw [List.mem_singleton.mp h2]
              exact Bool.not_eq_true _ ▸ (by simpa using hl)

/-- If the schema check fails on the handed context and on every context
reached until a limit-named entry is popped, the search returns `none`,
regardless of what lies beyond the limit. -/
theorem findAllowedContextGo_limit {check : List CtxEntry → Bool} {limits : String → Bool}
    (pre : List CtxEntry) (e : CtxEntry) (hlim : limits e.name = true) :
    ∀ (suf : List CtxEntry) (fuel : Nat), suf.length < fuel →
      (∀ k, k ≤ suf.length → check (pre ++ e :: suf.take k) = false) →
      _findAllowedContextGo check limits fuel (pre ++ e :: suf) = none := by
  intro suf
  induction suf using List.reverseRecOn with
  | nil =>
    intro fuel hf hchk
    match fuel, hf with
    | f + 1, _ =>
      have h0 : check (pre ++ [e]) = false := by simpa using hchk 0 (by simp)
      rw [findAllowedContextGo_succ check limits f (pre ++ e :: []) (by simp)]
      have hgl : ((pre ++ e :: []).getLast (by simp)) = e := List.getLast_concat _
      rw [if_neg (by simpa using h0), hgl, if_pos hlim]
  | append_singleton s' a ih =>
    intro fuel hf hchk
    match fuel, hf with
    | f + 1, hf =>
      have hfull : check (pre ++ e :: (s' ++ [a])) = false := by
        have h1 := hchk (s' ++ [a]).length (Nat.le_refl _)
        rwa [List.take_length] at h1
      have hshape : pre ++ e :: (s' ++ [a]) = (pre ++ e :: s') ++ [a] := by
        simp
      rw [findAllowedContextGo_succ check limits f (pre ++ e :: (s' ++ [a])) (by simp)]
      rw [if_neg (by simpa using hfull)]
      have hgl : ((pre ++ e :: (s' ++ [a])).getLast (by simp)) = a := by
        rw [List.getLast_congr _ _ hshape, List.getLast_concat]
      rw [hgl]
      by_cases hla : limits a.name
      · rw [if_pos hla]
      · rw [if_neg hla]
        have hdl : (pre ++ e :: (s' ++ [a])).dropLast = pre ++ e :: s' := by
          rw [hshape, List.dropLast_concat]
        rw [hdl]
        refine ih f (by simp only [List.length_append, List.length_cons] at hf ⊢; omega) ?_
        intro k hk
        have := hchk k (by simp; omega)
        have htk : (s' ++ [a]).take k = s'.take k := by
          rw [List.take_append_eq_append_take, Nat.sub_eq_zero_of_le hk,
            List.take_zero, List.append_nil]
        rwa [htk] at this

/-- C1: for every context chain and schema, the hoist-detection search
never returns a context obtained by popping past an entry whose name is a
schema limit (every popped entry is non-limit), and the instant the popped
entry's name is a limit the search returns NOT FOUND (`none`), even if an
ancestor context beyond the limit would satisfy the schema check. -/
theorem hoistSearch_respects_limits :
    (∀ (check : List CtxEntry → Bool) (limits : String → Bool) (ctx res : List CtxEntry),
        _findAllowedContext check limits ctx = some res →
        ∃ dropped, ctx = res ++ dropped ∧ ∀ e ∈ dropped, limits e.name = false) ∧
    (∀ (check : List CtxEntry → Bool) (limits : String → Bool)
        (pre : List CtxEntry) (e : CtxEntry) (suf : List CtxEntry),
        limits e.name = true →
        (∀ k, k ≤ suf.length → check (pre ++ e :: suf.take k) = false) →
        _findAllowedContext check limits (pre ++ e :: suf) = none) := by
  constructor
  · intro check limits ctx res h
    exact findAllowedContextGo_prefix ctx.length ctx res h
  · intro check limits pre e suf hlim hchk
    exact findAllowedContextGo_limit pre e hlim suf (pre ++ e :: suf).length
      (by simp only [List.length_append, List.length_cons]; omega) hchk

/-- Witness for C1: a concrete search that succeeds pops only non-limit
entries, and a concrete media tag in a disallowed inline context inside a
limit container inside a valid root yields NOT FOUND. -/
theorem hoistSearch_respects_limits_witness :
    (∃ dropped, ([CtxEntry.str "$root", CtxEntry.str "div"] : List CtxEntry) =
        [CtxEntry.str "$root"] ++ dropped ∧
        ∀ e ∈ dropped, ((fun n => n == "lim") e.name) = false) ∧
    _findAllowedContext
      (fun c => match c with | [CtxEntry.str s] => s == "$root" | _ => false)
      (fun n => n == "lim")
      [CtxEntry.str "$root", CtxEntry.str "lim", CtxEntry.str "span"] = none := by
  constructor
  · exact hoistSearch_respects_limits.1
      (fun c => match c with | [CtxEntry.str s] => s == "$root" | _ => false)
      (fun n => n == "lim")
      [CtxEntry.str "$root", CtxEntry.str "div"] [CtxEntry.str "$root"] rfl
  · exact hoistSearch_respects_limits.2
      (fun c => match c with | [CtxEntry.str s] => s == "$root" | _ => false)
      (fun n => n == "lim")
      [CtxEntry.str "$root"] (CtxEntry.str "lim") [CtxEntry.str "span"] rfl (by decide)

/-- C2: on an element whose direct children are `[A, H, B, C]` with
exactly `H` carrying the autohoist mark, the repair converter replaces the
single-element result by a document fragment holding, in order, the
original element still holding `A`, then `H` promoted to top level, then a
shallow clone of the element holding `B` and `C` — preserving the original
relative order of `A` versus `(B, C)`. -/
theorem hoistImage_splits_middle (name : String) (attrs : List (String × String))
    (A H B C : MNode) (marked : MNode → Bool)
    (hA : marked A = false) (hH : marked H = true)
    (hB : marked B = false) (hC : marked C = false) :
    hoistImage marked (some (.element name attrs [A, H, B, C])) =
      some (.fragment [.element name attrs [A], H, .element name attrs [B, C]]) := by
  simp [hoistImage, hoistLoop, hA, hH, hB, hC]

/-- Witness for C2 at a concrete element and marker set. -/
theorem hoistImage_splits_middle_witness :
    hoistImage (fun n => match n with | MNode.text "H" => true | _ => false)
      (some (.element "p" [("k", "v")] [.text "A", .text "H", .text "B", .text "C"])) =
      some (.fragment [.element "p" [("k", "v")] [.text "A"], .text "H",
        .element "p" [("k", "v")] [.text "B", .text "C"]]) :=
  hoistImage_splits_middle "p" [("k", "v")] _ _ _ _ _ rfl rfl rfl rfl

/-- C3: on an element whose only direct child carries the autohoist mark,
the repair converter yields the fragment `[H, emptyClone]` — the hoisted
child first, then an empty version of the original element, which is
never dropped entirely. -/
theorem hoistImage_keeps_emptied_element (name : String) (attrs : List (String × String))
    (H : MNode) (marked : MNode → Bool) (hH : marked H = true) :
    hoistImage marked (some (.element name attrs [H])) =
      some (.fragment [H, .element name attrs []]) := by
  simp [hoistImage, hoistLoop, hH]

/-- Witness for C3 at a concrete element and marker set. -/
theorem hoistImage_keeps_emptied_element_witness :
    hoistImage (fun n => match n with | MNode.text "H" => true | _ => false)
      (some (.element "p" [("k", "v")] [.text "H"])) =
      some (.fragment [.text "H", .element "p" [("k", "v")] []]) :=
  hoistImage_keeps_emptied_element "p" [("k", "v")] _ _ rfl

/-- Consuming a marker makes its test fail afterwards. -/
theorem consume_test_false (c : Consumable) (id : Nat) (m : String) :
    (c.consume id m).test id m = false := by
  simp [Consumable.consume, Consumable.test]

/-- C7: if a container figure holds only a bare img child that lacks the
src attribute, the figure-to-image converter declines: the output stays as
handed (no model node is produced) and every consumable marker is
untouched, so a later, more general converter can still attempt the raw
media tag. -/
theorem viewFigureToModel_declines_missing_src (api : ConversionApi)
    (figId imgId : Nat) (figAttrs imgAttrs : List (String × String))
    (imgChildren : List VNode) (context : List CtxEntry) (output : Option MNode)
    (cons : Consumable) (hsrc : lookupAttr imgAttrs "src" = none) :
    viewFigureToModel api
      (.element figId "figure" figAttrs [.element imgId "img" imgAttrs imgChildren])
      context output cons = some (output, context, cons) := by
  simp [viewFigureToModel, VNode.childrenOf, VNode.isImg, VNode.hasAttr, hsrc]

/-- Witness for C7 at a concrete figure, schema and fresh consumables. -/
theorem viewFigureToModel_declines_missing_src_witness :
    viewFigureToModel rtApi
      (.element 5 "figure" [("class", "image")]
        [.element 6 "img" [("alt", "a")] []])
      [CtxEntry.str "$root"] none ⟨[]⟩ = some (none, [CtxEntry.str "$root"], ⟨[]⟩) :=
  viewFigureToModel_declines_missing_src rtApi 5 6 [("class", "image")] [("alt", "a")]
    [] [CtxEntry.str "$root"] none ⟨[]⟩ rfl

/-- C9: converters mutate the context chain only by copy. The
figure-to-image converter hands back exactly the context it was given
(its push of the model image is cancelled by the matching pop), and the
hoist-detection converter never writes the handed context (the search
runs on a copy; the found context goes into a fresh data object). -/
theorem converters_preserve_context :
    (∀ (api : ConversionApi) (input : VNode) (context : List CtxEntry)
        (output o : Option MNode) (cons k : Consumable) (c : List CtxEntry),
        viewFigureToModel api input context output cons = some (o, c, k) →
        c = context) ∧
    (∀ (sc : String → List String → List CtxEntry → Bool) (limits : String → Bool)
        (cif : VNode → Consumable → List CtxEntry → Option MNode × Consumable)
        (img : VNode) (context : List CtxEntry) (output o : Option MNode)
        (cons k : Consumable) (hoisted h' : List MNode) (c : List CtxEntry),
        convertHoistableImage sc limits cif img context output cons hoisted
          = some (o, c, k, h') → c = context) := by
  constructor
  · intro api input context output o cons k c h
    unfold viewFigureToModel at h
    split at h
    · simp only [Option.some.injEq, Prod.mk.injEq] at h
      exact h.2.1.symm
    · split at h
      · simp only [Option.some.injEq, Prod.mk.injEq] at h
        exact h.2.1.symm
      · split at h
        · simp only [Option.some.injEq, Prod.mk.injEq] at h
          exact h.2.1.symm
        · split at h
          · simp only [Option.some.injEq, Prod.mk.injEq] at h
            exact h.2.1.symm
          · split at h
            · exact absurd h (by simp)
            · split at h
              simp only [Option.some.injEq, Prod.mk.injEq] at h
              rw [← h.2.1, List.dropLast_concat]
  · intro sc limits cif img context output o cons k hoisted h' c h
    unfold convertHoistableImage at h
    split at h
    · simp only [Option.some.injEq, Prod.mk.injEq] at h
      exact h.2.1.symm
    · split at h
      · simp only [Option.some.injEq, Prod.mk.injEq] at h
        exact h.2.1.symm
      · split at h
        · simp only [Option.some.injEq, Prod.mk.injEq] at h
          exact h.2.1.symm
        · exact absurd h (by simp)

/-- Witness for C9: concrete successful runs of both converters hand back
the context they were given. -/
theorem converters_preserve_context_witness :
    ([CtxEntry.str "$root"] : List CtxEntry) = [CtxEntry.str "$root"] ∧
    ([CtxEntry.str "$root", CtxEntry.str "p"] : List CtxEntry) =
      [CtxEntry.str "$root", CtxEntry.str "p"] := by
  constructor
  · exact converters_preserve_context.1 rtApi (mkViewFigure 5 6 "x" "y")
      [CtxEntry.str "$root"] none
      (some (.element "image" [("src", "x"), ("alt", "y")] [])) ⟨[]⟩
      ⟨[(6, "name"), (6, "attribute:src"), (6, "attribute:alt")]⟩
      [CtxEntry.str "$root"] rfl
  · exact converters_preserve_context.2 rtSchema (fun _ => false)
      (imgElementConverter rtSchema) (.element 7 "img" [("src", "x")] [])
      [CtxEntry.str "$root", CtxEntry.str "p"] none
      (some (.element "image" [("src", "x")] [])) ⟨[]⟩
      ⟨[(7, "name"), (7, "attribute:src")]⟩ []
      [.element "image" [("src", "x")] []]
      [CtxEntry.str "$root", CtxEntry.str "p"] rfl

/-- C6: the model→view attribute sync converter is idempotent against
duplicate dispatch: when a firing produced a result state, firing the same
event again on that state finds the `(changeKind, key)` marker consumed
and is a strict no-op. -/
theorem attrSync_idempotent (evtName : String) (itemId : Nat) (key val : String)
    (st st' : SyncState)
    (h : modelToViewAttributeConverter evtName itemId key val st = some st') :
    modelToViewAttributeConverter evtName itemId key val st' = some st' := by
  simp only [modelToViewAttributeConverter] at h ⊢
  set parts := jsSplit evtName ':' with hparts
  set ct := parts.getD 0 "undefined" ++ ":" ++ parts.getD 1 "undefined" with hct
  by_cases htest : st.cons.test itemId ct = true
  · rw [if_neg (by simp [htest])] at h
    split at h
    · split at h
      · simp only [Option.some.injEq] at h
        subst h
        rw [if_pos (by simp [consume_test_false])]
      · exact absurd h (by simp)
    · exact absurd h (by simp)
  · have hf : st.cons.test itemId ct = false := by simpa using htest
    rw [if_pos (by simp [hf])] at h
    simp only [Option.some.injEq] at h
    subst h
    rw [if_pos (by simp [hf])]

/-- Witness for C6: a concrete duplicate `addAttribute:src` firing is a
no-op on the state the first firing produced. -/
theorem attrSync_idempotent_witness :
    modelToViewAttributeConverter "addAttribute:src:image" 0 "src" "u"
      ⟨⟨[(0, "addAttribute:src")]⟩,
        .element 0 "figure" [("class", "image")] [.element 1 "img" [("src", "u")] []]⟩ =
      some ⟨⟨[(0, "addAttribute:src")]⟩,
        .element 0 "figure" [("class", "image")] [.element 1 "img" [("src", "u")] []]⟩ :=
  attrSync_idempotent "addAttribute:src:image" 0 "src" "u"
    ⟨⟨[]⟩, .element 0 "figure" [("class", "image")] [.element 1 "img" [] []]⟩ _ rfl

/-- C5: converting `<figure class="image"><img src="x"><p>caption</p></figure>`
with the figure unconsumed and the image schema-valid at the current
context yields exactly one `image` model node with `src = "x"` whose
content starts with the children delivered by child conversion — here
exactly one model node converted from `<p>caption</p>`. -/
theorem viewFigureToModel_folds_figure
    (sc : String → List String → List CtxEntry → Bool)
    (cc : VNode → Consumable → List CtxEntry → List MNode × Consumable)
    (context : List CtxEntry) (P : MNode) (cons₃ : Consumable)
    (hsc : sc "image" ["src"] context = true)
    (hcc : cc (.element 5 "figure" [("class", "image")]
        [.element 6 "img" [("src", "x")] [],
         .element 7 "p" [] [.text 8 "caption"]])
        ⟨[(6, "name"), (6, "attribute:src")]⟩
        (context ++ [CtxEntry.node (.element "image" [("src", "x")] [])])
        = ([P], cons₃)) :
    viewFigureToModel (mkApi sc cc)
      (.element 5 "figure" [("class", "image")]
        [.element 6 "img" [("src", "x")] [],
         .element 7 "p" [] [.text 8 "caption"]])
      context none ⟨[]⟩ =
      some (some (.element "image" [("src", "x")] [P]), context, cons₃) := by
  have hd1 : testDotRegex "x" = true := by decide
  have h1 : testNameAndClass ⟨[]⟩ (VNode.element 5 "figure" [("class", "image")]
      [.element 6 "img" [("src", "x")] [],
       .element 7 "p" [] [.text 8 "caption"]]) "image" = true := by decide
  have e1 : lookupAttr [("src", "x")] "src" = some "x" := rfl
  have e2 : lookupAttr [("src", "x")] "alt" = none := rfl
  simp only [viewFigureToModel, mkApi, h1, Bool.not_true, Bool.false_eq_true, if_false,
    hsc, VNode.childrenOf, List.find?, VNode.isImg]
  simp only [imgElementConverter, e1, e2, hd1, hsc, Consumable.test, Consumable.consume,
    VNode.hasAttr, VNode.vid, lookupAttr, insertChildrenAtStart]
  simp [hd1, hcc, List.dropLast_concat]

/-- Witness for C5 with the registered schema, the `$root` context and a
concrete child converter producing one `paragraph` model node. -/
theorem viewFigureToModel_folds_figure_witness :
    viewFigureToModel
      (mkApi rtSchema (fun _ c _ => ([MNode.element "paragraph" [] [.text "caption"]], c)))
      (.element 5 "figure" [("class", "image")]
        [.element 6 "img" [("src", "x")] [],
         .element 7 "p" [] [.text 8 "caption"]])
      [CtxEntry.str "$root"] none ⟨[]⟩ =
      some (some (.element "image" [("src", "x")]
          [.element "paragraph" [] [.text "caption"]]),
        [CtxEntry.str "$root"],
        ⟨[(6, "name"), (6, "attribute:src")]⟩) :=
  viewFigureToModel_folds_figure rtSchema
    (fun _ c _ => ([MNode.element "paragraph" [] [.text "caption"]], c))
    [CtxEntry.str "$root"] (MNode.element "paragraph" [] [.text "caption"])
    ⟨[(6, "name"), (6, "attribute:src")]⟩ rfl rfl

/-- Counterexample to C4 as stated: for the valid pair `src = "x"`,
`alt = ""` the round trip yields an img with no `alt` attribute at all —
the registered `alt` converter's `/./` pattern rejects the empty string —
so the result is not an img with identical `src` and `alt` attributes. -/
theorem roundTrip_drops_empty_alt :
    roundTrip "x" "" =
      some (.element 0 "figure" [("class", "image")] [.element 1 "img" [("src", "x")] []]) ∧
    roundTrip "x" "" ≠ some (mkViewFigure 0 1 "x" "") := by
  constructor
  · rfl
  · intro h
    rw [(by rfl : roundTrip "x" "" =
      some (VNode.element 0 "figure" [("class", "image")]
        [.element 1 "img" [("src", "x")] []]))] at h
    simp [mkViewFigure] at h

/-- C4 (amended): for every `src` and `alt` that match the registered
converters' `/./` patterns (each contains at least one non-line-terminator
character; in particular both non-empty), converting the view figure/img
pair to the model and back reproduces an equivalent figure/img pair with
identical `src` and `alt` attributes. -/
theorem roundTrip_preserves_attributes (src alt : String)
    (hs : testDotRegex src = true) (ha : testDotRegex alt = true) :
    roundTrip src alt = some (mkViewFigure 0 1 src alt) := by
  have h1 : testNameAndClass ⟨[]⟩ (mkViewFigure 5 6 src alt) "image" = true := rfl
  have e0 : (mkViewFigure 5 6 src alt).childrenOf.find? VNode.isImg
      = some (.element 6 "img" [("src", src), ("alt", alt)] []) := rfl
  have e1 : lookupAttr [("src", src), ("alt", alt)] "src" = some src := rfl
  have e2 : lookupAttr [("src", src), ("alt", alt)] "alt" = some alt := rfl
  simp only [roundTrip, viewFigureToModel, rtApi, h1, e0, Bool.not_true, Bool.false_eq_true,
    if_false, VNode.hasAttr, VNode.vid, e1, Option.isSome_some]
  simp only [imgElementConverter, e1, e2, hs, ha, Consumable.test, Consumable.consume,
    rtSchema, convertChildrenData, VNode.childrenOf, insertChildrenAtStart]
  simp [hs, ha, modelImageToView, modelToViewAttributeConverter, jsSplit, splitChar,
    setAttr, mkViewFigure, Consumable.test, Consumable.consume, createImageViewElement]

/-- Witness for the amended C4 at a concrete non-empty pair. -/
theorem roundTrip_preserves_attributes_witness :
    roundTrip "x" "a descriptive text" = some (mkViewFigure 0 1 "x" "a descriptive text") :=
  roundTrip_preserves_attributes "x" "a descriptive text" (by decide) (by decide)

/-- Counterexample to C8 as stated: a concrete detection run adds the
converted image to the marker set, and the repair step — which does split
the surrounding element, so it did consult the entry — hands the marker
set back with the entry still present: the set (a single module-level
weak set in the source) is not cleared by the repair step, so the entry
survives. -/
theorem autohoistSet_survives_repair :
    convertHoistableImage rtSchema (fun _ => false) (imgElementConverter rtSchema)
      (.element 7 "img" [("src", "x")] []) [CtxEntry.str "$root", CtxEntry.str "p"]
      none ⟨[]⟩ [] =
      some (some (.element "image" [("src", "x")] []),
        [CtxEntry.str "$root", CtxEntry.str "p"],
        ⟨[(7, "name"), (7, "attribute:src")]⟩,
        [.element "image" [("src", "x")] []]) ∧
    hoistImagePass [.element "image" [("src", "x")] []]
        (some (.element "paragraph" [] [.element "image" [("src", "x")] []])) =
      (some (.fragment [.element "image" [("src", "x")] [], .element "paragraph" [] []]),
        [.element "image" [("src", "x")] []]) := by
  exact ⟨rfl, rfl⟩

/-- C8 (amended): the marker set lives in a single module-level weak set
shared across passes. A successful detection run appends its output to the
set, and the repair step only consults the set — it never removes the
entry, which therefore persists after repair (its lifetime governed by
garbage collection of the node, not by the pass). -/
theorem autohoistSet_entries_persist
    (sc : String → List String → List CtxEntry → Bool) (limits : String → Bool)
    (cif : VNode → Consumable → List CtxEntry → Option MNode × Consumable)
    (img : VNode) (ctx : List CtxEntry) (output : Option MNode)
    (cons cons' : Consumable) (hoisted : List MNode) (m : MNode)
    (htest : (cons.test img.vid "name" && cons.test img.vid "attribute:src") = true)
    (hfound : ∃ ac, _findAllowedContext (fun c => sc "image" ["src"] c) limits ctx = some ac ∧
      cif img cons ac = (some m, cons')) :
    convertHoistableImage sc limits cif img ctx output cons hoisted
      = some (some m, ctx, cons', hoisted ++ [m]) ∧
    m ∈ hoisted ++ [m] ∧
    ∀ out, (hoistImagePass (hoisted ++ [m]) out).2 = hoisted ++ [m] := by
  obtain ⟨ac, hac, hcif⟩ := hfound
  refine ⟨?_, by simp, fun out => rfl⟩
  unfold convertHoistableImage
  rw [if_neg (by simp [htest])]
  simp only [hac, hcif]

/-- Witness for the amended C8 at the concrete detection run of the
counterexample. -/
theorem autohoistSet_entries_persist_witness :
    convertHoistableImage rtSchema (fun _ => false) (imgElementConverter rtSchema)
      (.element 7 "img" [("src", "x")] []) [CtxEntry.str "$root", CtxEntry.str "p"]
      none ⟨[]⟩ [] =
      some (some (.element "image" [("src", "x")] []),
        [CtxEntry.str "$root", CtxEntry.str "p"],
        ⟨[(7, "name"), (7, "attribute:src")]⟩,
        [] ++ [MNode.element "image" [("src", "x")] []]) ∧
    MNode.element "image" [("src", "x")] [] ∈ [] ++ [MNode.element "image" [("src", "x")] []] ∧
    ∀ out, (hoistImagePass ([] ++ [MNode.element "image" [("src", "x")] []]) out).2 =
      [] ++ [MNode.element "image" [("src", "x")] []] :=
  autohoistSet_entries_persist rtSchema (fun _ => false) (imgElementConverter rtSchema)
    (.element 7 "img" [("src", "x")] []) [CtxEntry.str "$root", CtxEntry.str "p"]
    none ⟨[]⟩ ⟨[(7, "name"), (7, "attribute:src")]⟩ [] (.element "image" [("src", "x")] [])
    (by decide) ⟨[CtxEntry.str "$root"], rfl, rfl⟩

/-- Splicing a dropped middle segment back against the final suffix gives
the original suffix. -/
theorem take_drop_append (L : List MNode) (i j : Nat) (hij : i < j) (hjn : j ≤ L.length) :
    (L.take j).drop (i + 1) ++ L.drop j = L.drop (i + 1) := by
  conv_rhs => rw [← List.take_append_drop j L]
  rw [List.drop_append_eq_append_drop, List.length_take]
  have h0 : i + 1 - min j L.length = 0 := by omega
  rw [h0, List.drop_zero]

/-- The scanning loop of `hoistImage` preserves `LoopInv` down to
counter zero. -/
theorem hoistLoop_inv (name : String) (attrs : List (String × String)) (marked : MNode → Bool)
    (hElem : ∀ cs, marked (MNode.element name attrs cs) = false) (L : List MNode) :
    ∀ (c : Nat) (cur no : List MNode) (hn : Bool),
      LoopInv name attrs marked L c (cur, no, hn) →
      LoopInv name attrs marked L 0 (hoistLoop name attrs marked c cur no hn) := by
  intro c
  induction c with
  | zero =>
    intro cur no hn h
    simpa [hoistLoop] using h
  | succ i ih =>
    intro cur no hn h
    obtain ⟨j, hcj, hjn, hcur, hmid, hhn, hdisj⟩ := h
    dsimp only at hcur hhn hdisj
    have hij : i < j := hcj
    have hin : i < L.length := lt_of_lt_of_le hij hjn
    have hLne : L ≠ [] := by
      intro hL
      rw [hL] at hin
      simp at hin
    have hgetc : cur[i]? = some L[i] := by
      rw [hcur, List.getElem?_take, if_pos hij, List.getElem?_eq_getElem hin]
    have hno1 : (no.drop 1).flatMap (flattenPiece marked) = L.drop j ∧
        ∀ p ∈ no.drop 1, marked p = true ∨ ∃ cs, cs ≠ [] ∧ p = MNode.element name attrs cs := by
      rcases hdisj with ⟨hj, hno⟩ | ⟨hjlt, tail, hno, htail⟩
      · rw [hno]
        simp [hj, List.drop_length]
      · have htkne : ¬(L.take j).isEmpty = true := by
          simp only [List.isEmpty_iff, List.take_eq_nil_iff]
          push_neg
          exact ⟨by omega, hLne⟩
        rw [hno, if_neg htkne]
        simpa using htail
    simp only [hoistLoop, hgetc]
    by_cases hm : marked L[i] = true
    · rw [if_pos hm]
      have hcti : cur.take i = L.take i := by
        rw [hcur, List.take_take, min_eq_left (le_of_lt hij)]
      have hcdi : cur.drop (i + 1) = (L.take j).drop (i + 1) := by rw [hcur]
      have hTL : TailInv name attrs marked L i
          (L[i] :: (if (cur.drop (i + 1)).isEmpty = true then no.drop 1
            else MNode.element name attrs (cur.drop (i + 1)) :: no.drop 1)) := by
        constructor
        · rw [List.flatMap_cons]
          have hfp : flattenPiece marked L[i] = [L[i]] := by simp [flattenPiece, hm]
          rw [hfp]
          have hrest : (if (cur.drop (i + 1)).isEmpty = true then no.drop 1
              else MNode.element name attrs (cur.drop (i + 1)) :: no.drop 1).flatMap
                (flattenPiece marked) = cur.drop (i + 1) ++ L.drop j := by
            by_cases hbe : (cur.drop (i + 1)).isEmpty = true
            · rw [if_pos hbe, hno1.1, List.isEmpty_iff.mp hbe]
              simp
            · rw [if_neg hbe, List.flatMap_cons, hno1.1]
              congr 1
              simp [flattenPiece, hElem]
          rw [hrest, hcdi, take_drop_append L i j hij hjn, List.singleton_append,
            ← List.drop_eq_getElem_cons hin]
        · intro p hp
          rcases List.mem_cons.mp hp with hp | hp
          · rw [hp]
            exact Or.inl hm
          · by_cases hbe : (cur.drop (i + 1)).isEmpty = true
            · rw [if_pos hbe] at hp
              exact hno1.2 p hp
            · rw [if_neg hbe] at hp
              rcases List.mem_cons.mp hp with hp | hp
              · refine Or.inr ⟨cur.drop (i + 1), by simpa [List.isEmpty_iff] using hbe, hp⟩
              · exact hno1.2 p hp
      refine ih _ _ _ ⟨i, le_refl i, le_of_lt hin, by dsimp only; exact hcti, ?_, ?_,
        Or.inr ⟨hin,
          L[i] :: (if (cur.drop (i + 1)).isEmpty = true then no.drop 1
            else MNode.element name attrs (cur.drop (i + 1)) :: no.drop 1),
          by dsimp only; rw [hcti], hTL⟩⟩
      · intro x hx
        rw [List.drop_eq_nil_of_le (by rw [List.length_take]; omega)] at hx
        simp at hx
      · dsimp only
        rw [hhn, List.drop_eq_getElem_cons hin, List.any_cons, hm]
        simp
    · rw [if_neg hm]
      have hmf : marked L[i] = false := by simpa using hm
      have hitk : i < (L.take j).length := by
        rw [List.length_take]
        omega
      refine ih _ _ _ ⟨j, le_of_lt hij, hjn, hcur, ?_, ?_, hdisj⟩
      · intro x hx
        rw [List.drop_eq_getElem_cons hitk, List.getElem_take] at hx
        rcases List.mem_cons.mp hx with hx | hx
        · rw [hx]
          exact hmf
        · exact hmid x hx
      · dsimp only
        rw [List.drop_eq_getElem_cons hin, List.any_cons, hmf]
        simp

/-- C10: the repair converter conserves children. For every element-typed
conversion result, the output exists and flattening it — each hoisted
(marked) node standing for itself, each element piece contributing its
children — returns exactly the original child sequence in order, with no
child dropped or duplicated; and whenever at least one child was not
marked for hoisting, every piece of the output is either a hoisted node or
a non-empty element piece (no spurious empty piece appears). -/
theorem hoistImage_conserves_children (name : String) (attrs : List (String × String))
    (L : List MNode) (marked : MNode → Bool)
    (hElem : ∀ cs, marked (MNode.element name attrs cs) = false) :
    ∃ r, hoistImage marked (some (.element name attrs L)) = some r ∧
      flattenPieces marked r = L ∧
      ((∃ x ∈ L, marked x = false) →
        ∀ p ∈ pieces r, marked p = true ∨ ∃ cs, cs ≠ [] ∧ p = MNode.element name attrs cs) := by
  have hinit : LoopInv name attrs marked L L.length (L, [], false) := by
    refine ⟨L.length, le_refl _, le_refl _, (List.take_length L).symm, ?_, ?_,
      Or.inl ⟨rfl, rfl⟩⟩
    · intro x hx
      rw [List.take_length, List.drop_length] at hx
      simp at hx
    · rw [List.drop_length]
      simp
  have hfin := hoistLoop_inv name attrs marked hElem L L.length L [] false hinit
  rcases hres : hoistLoop name attrs marked L.length L [] false with ⟨cur₀, no₀, hn₀⟩
  rw [hres] at hfin
  obtain ⟨j, h0j, hjn, hcur, hmid, hhn, hdisj⟩ := hfin
  dsimp only at hcur hhn hdisj
  simp only [List.drop_zero] at hmid hhn
  rcases hdisj with ⟨hj, hno⟩ | ⟨hjlt, tail, hno, htail⟩
  · -- no child was hoisted: the output is the untouched element
    subst hj
    have hcurL : cur₀ = L := by rw [hcur, List.take_length]
    refine ⟨.element name attrs cur₀, ?_, ?_, ?_⟩
    · simp [hoistImage, hres, hno]
    · simp [flattenPieces, pieces, flattenPiece, hElem, hcurL]
    · intro hex p hp
      obtain ⟨x, hxL, _⟩ := hex
      have hLne : L ≠ [] := by
        intro hL
        rw [hL] at hxL
        simp at hxL
      simp only [pieces, List.mem_singleton] at hp
      rw [hp]
      exact Or.inr ⟨cur₀, by rw [hcurL]; exact hLne, rfl⟩
  · -- at least one child was hoisted: the output is a fragment
    have hLne : L ≠ [] := by
      intro hL
      rw [hL] at hjlt
      simp at hjlt
    by_cases hany : L.any (fun x => !marked x) = true
    · -- some child was not hoisted: no empty element is appended
      have hhn₀ : hn₀ = true := by rw [hhn]; exact hany
      by_cases hj0 : (L.take j).isEmpty = true
      · have hnoT : no₀ = tail := by rw [hno, if_pos hj0]
        have hj0x : j = 0 := by
          rcases List.take_eq_nil_iff.mp (List.isEmpty_iff.mp hj0) with h | h
          · exact h
          · exact absurd h hLne
        have htailne : no₀ ≠ [] := by
          intro hT
          have := htail.1
          rw [← hnoT, hT] at this
          simp only [List.flatMap_nil] at this
          rw [hj0x, List.drop_zero] at this
          exact hLne this.symm
        refine ⟨.fragment no₀, ?_, ?_, ?_⟩
        · simp only [hoistImage, hres]
          rw [if_neg (by simpa [List.isEmpty_iff] using htailne), hhn₀, if_pos rfl]
        · rw [flattenPieces]
          simp only [pieces]
          rw [hnoT, htail.1, hj0x, List.drop_zero]
        · intro _ p hp
          simp only [pieces] at hp
          rw [hnoT] at hp
          exact htail.2 p hp
      · have hnoT : no₀ = MNode.element name attrs (L.take j) :: tail := by
          rw [hno, if_neg hj0]
        refine ⟨.fragment no₀, ?_, ?_, ?_⟩
        · simp only [hoistImage, hres]
          rw [if_neg (by simp [hnoT]), hhn₀, if_pos rfl]
        · rw [flattenPieces]
          simp only [pieces]
          rw [hnoT, List.flatMap_cons, htail.1]
          have hfp : flattenPiece marked (MNode.element name attrs (L.take j)) = L.take j := by
            simp [flattenPiece, hElem]
          rw [hfp, List.take_append_drop]
        · intro _ p hp
          simp only [pieces] at hp
          rw [hnoT] at hp
          rcases List.mem_cons.mp hp with hp | hp
          · rw [hp]
            exact Or.inr ⟨L.take j, by simpa [List.isEmpty_iff] using hj0, rfl⟩
          · exact htail.2 p hp
    · -- every child was hoisted: the emptied element is appended once
      have hall : ∀ x ∈ L, marked x = true := by simpa using hany
      have hj0x : j = 0 := by
        by_contra hj0
        have htkne : L.take j ≠ [] := by
          simp only [ne_eq, List.take_eq_nil_iff]
          push_neg
          exact ⟨hj0, hLne⟩
        obtain ⟨x, hxtk⟩ := List.exists_mem_of_ne_nil _ htkne
        have h1 := hmid x hxtk
        have h2 := hall x (List.take_subset j L hxtk)
        rw [h1] at h2
        exact Bool.false_ne_true h2
      have hj0 : (L.take j).isEmpty = true := by
        rw [hj0x, List.take_zero]
        rfl
      have hnoT : no₀ = tail := by rw [hno, if_pos hj0]
      have hcur0 : cur₀ = [] := by rw [hcur, hj0x, List.take_zero]
      have hhn₀ : hn₀ = false := by
        rw [hhn]
        simpa using hany
      have htailne : no₀ ≠ [] := by
        intro hT
        have := htail.1
        rw [← hnoT, hT] at this
        simp only [List.flatMap_nil] at this
        rw [hj0x, List.drop_zero] at this
        exact hLne this.symm
      refine ⟨.fragment (no₀ ++ [.element name attrs cur₀]), ?_, ?_, ?_⟩
      · simp only [hoistImage, hres]
        rw [if_neg (by simpa [List.isEmpty_iff] using htailne), hhn₀]
        simp
      · rw [flattenPieces]
        simp only [pieces]
        rw [List.flatMap_append, hnoT, htail.1, hj0x, List.drop_zero]
        have hfp : flattenPiece marked (MNode.element name attrs []) = [] := by
          simp [flattenPiece, hElem]
        simp [hcur0, hfp]
      · intro hex _ _
        obtain ⟨x, hxL, hxm⟩ := hex
        have := hall x hxL
        rw [hxm] at this
        exact absurd this Bool.false_ne_true

/-- Witness for C10 at a concrete element, child list and marker set. -/
theorem hoistImage_conserves_children_witness :
    ∃ r, hoistImage (fun n => match n with | MNode.text "H" => true | _ => false)
        (some (.element "p" [] [.text "A", .text "H"])) = some r ∧
      flattenPieces (fun n => match n with | MNode.text "H" => true | _ => false) r
        = [.text "A", .text "H"] ∧
      ((∃ x ∈ [MNode.text "A", MNode.text "H"],
          (fun n => match n with | MNode.text "H" => true | _ => false) x = false) →
        ∀ p ∈ pieces r,
          (fun n => match n with | MNode.text "H" => true | _ => false) p = true ∨
          ∃ cs, cs ≠ [] ∧ p = MNode.element "p" [] cs) :=
  hoistImage_conserves_children "p" [] [.text "A", .text "H"] _ (fun _ => rfl)

end CKImage
